import Mathlib

/-!
Shallow embedding of the endianness core: the `Endianity` strategies
(`endianity.rs`) and the `EndianSlice` view with its range methods and its
`Reader` implementation (`endian_slice.rs`).

Bytes are modelled as `Nat` (the source's `u8`, so a byte is `< 256`); a byte
buffer is a `List Nat`.  A Rust panic (out-of-bounds slice indexing) is
modelled as `Option.none`; a fallible `Reader` operation on `&mut self`
returns its `Result` together with the final state, the error branch leaving
the state exactly as it was.
-/

namespace Gimli

/-- The two error kinds of the core (`parser::Error` variants this core
produces). -/
inductive Error
  | UnexpectedEof
  | BadUtf8
  deriving DecidableEq, Repr

/-- `RunTimeEndian`: byte order selectable at runtime. -/
inductive RunTimeEndian
  | Little
  | Big
  deriving DecidableEq, Repr, BEq

/-- The three concrete `Endianity` strategies: `LittleEndian`, `BigEndian`
and `RunTimeEndian` (with its tag). -/
inductive Endian
  | LittleEndian
  | BigEndian
  | RunTime (tag : RunTimeEndian)
  deriving DecidableEq, Repr

/-- `is_big_endian` of each `Endianity` impl: `false` for `LittleEndian`,
`true` for `BigEndian`, and `self != RunTimeEndian::Little` for
`RunTimeEndian`. -/
def Endian.is_big_endian : Endian → Bool
  | .LittleEndian => false
  | .BigEndian => true
  | .RunTime t => t != RunTimeEndian.Little

/-- `is_little_endian`, defined in the trait as the negation. -/
def Endian.is_little_endian (e : Endian) : Bool :=
  !e.is_big_endian

/-- Big-endian value of a byte list, most significant byte first
(`byteorder::BigEndian::read_uN` on exactly those bytes). -/
def beBytes (l : List Nat) : Nat :=
  l.foldl (fun acc b => acc * 256 + b) 0

/-- Little-endian value of a byte list, least significant byte first
(`byteorder::LittleEndian::read_uN` on exactly those bytes). -/
def leBytes (l : List Nat) : Nat :=
  beBytes l.reverse

/-- `Endianity::read_u16`: interpret the first 2 bytes of `buf` in the
strategy's order. -/
def Endian.read_u16 (e : Endian) (buf : List Nat) : Nat :=
  if e.is_big_endian then beBytes (buf.take 2) else leBytes (buf.take 2)

/-- `Endianity::read_u32`: interpret the first 4 bytes of `buf` in the
strategy's order. -/
def Endian.read_u32 (e : Endian) (buf : List Nat) : Nat :=
  if e.is_big_endian then beBytes (buf.take 4) else leBytes (buf.take 4)

/-- `Endianity::read_u64`: interpret the first 8 bytes of `buf` in the
strategy's order. -/
def Endian.read_u64 (e : Endian) (buf : List Nat) : Nat :=
  if e.is_big_endian then beBytes (buf.take 8) else leBytes (buf.take 8)

/-- Rust's `as iN` cast of an unsigned value: the low `w` bits reinterpreted
as a two's-complement signed integer. -/
def toSigned (w v : Nat) : Int :=
  if v % 2 ^ w < 2 ^ (w - 1) then ((v % 2 ^ w : Nat) : Int)
  else ((v % 2 ^ w : Nat) : Int) - 2 ^ w

/-- `Endianity::read_i16`: `self.read_u16(buf) as i16`. -/
def Endian.read_i16 (e : Endian) (buf : List Nat) : Int :=
  toSigned 16 (e.read_u16 buf)

/-- `Endianity::read_i32`: `self.read_u32(buf) as i32`. -/
def Endian.read_i32 (e : Endian) (buf : List Nat) : Int :=
  toSigned 32 (e.read_u32 buf)

/-- `Endianity::read_i64`: `self.read_u64(buf) as i64`. -/
def Endian.read_i64 (e : Endian) (buf : List Nat) : Int :=
  toSigned 64 (e.read_u64 buf)

/-- `EndianSlice`: a byte region with endianity metadata.  The `slice` field
is the visible byte content of the borrowed region (Rust's `&[u8]` compares
by content, so content is what the field denotes). -/
structure EndianSlice where
  slice : List Nat
  endian : Endian
  deriving DecidableEq, Repr

/-- `EndianSlice::new`. -/
def EndianSlice.new (slice : List Nat) (endian : Endian) : EndianSlice :=
  ⟨slice, endian⟩

/-- The byte content of the sub-slice `&buf[start..start+len]` of a backing
buffer: what a view placed at `start` with length `len` sees. -/
def subslice (buf : List Nat) (start len : Nat) : List Nat :=
  (buf.drop start).take len

/-- `EndianSlice::len` (`Reader::len`): length of the current region. -/
def EndianSlice.len (s : EndianSlice) : Nat :=
  s.slice.length

/-- `Reader::is_empty`. -/
def EndianSlice.is_empty (s : EndianSlice) : Bool :=
  s.slice.isEmpty

/-- Inherent `EndianSlice::find`: position of the first occurrence of a byte,
`None` when absent. -/
def EndianSlice.find (s : EndianSlice) (byte : Nat) : Option Nat :=
  s.slice.findIdx? (· == byte)

/-- `EndianSlice::range_to` (`&self.slice[..idx]`): `none` models the panic
when `idx` is out of bounds. -/
def EndianSlice.range_to (s : EndianSlice) (idx : Nat) : Option EndianSlice :=
  if idx ≤ s.slice.length then some ⟨s.slice.take idx, s.endian⟩ else none

/-- `EndianSlice::range_from` (`&self.slice[idx..]`): `none` models the panic
when `idx` is out of bounds. -/
def EndianSlice.range_from (s : EndianSlice) (idx : Nat) : Option EndianSlice :=
  if idx ≤ s.slice.length then some ⟨s.slice.drop idx, s.endian⟩ else none

/-- `EndianSlice::range` (`&self.slice[start..stop]`): `none` models the panic
on an out-of-bounds or reversed range. -/
def EndianSlice.range (s : EndianSlice) (start stop : Nat) : Option EndianSlice :=
  if start ≤ stop ∧ stop ≤ s.slice.length then
    some ⟨(s.slice.take stop).drop start, s.endian⟩
  else none

/-- `EndianSlice::split_at`: `(self.range_to(..idx), self.range_from(idx..))`,
propagating the panic (`none`) of either range method. -/
def EndianSlice.split_at (s : EndianSlice) (idx : Nat) :
    Option (EndianSlice × EndianSlice) :=
  match s.range_to idx, s.range_from idx with
  | some a, some b => some (a, b)
  | _, _ => none

/-- `EndianSlice::read_slice`: checked consumption of `len` bytes from the
front; on `UnexpectedEof` the state is returned untouched. -/
def EndianSlice.read_slice (s : EndianSlice) (len : Nat) :
    Except Error (List Nat) × EndianSlice :=
  if s.slice.length < len then (.error .UnexpectedEof, s)
  else (.ok (s.slice.take len), ⟨s.slice.drop len, s.endian⟩)

/-- Is `b` a UTF-8 continuation byte (`0x80..=0xBF`)? -/
def isCont (b : Nat) : Bool :=
  0x80 ≤ b && b < 0xC0

/-- Valid range of the first continuation byte of a 3-byte sequence led by
`b` (`0xE0` excludes overlongs, `0xED` excludes surrogates). -/
def cont3first (b c1 : Nat) : Bool :=
  if b = 0xE0 then 0xA0 ≤ c1 && c1 < 0xC0
  else if b = 0xED then 0x80 ≤ c1 && c1 < 0xA0
  else isCont c1

/-- Valid range of the first continuation byte of a 4-byte sequence led by
`b` (`0xF0` excludes overlongs, `0xF4` caps at `U+10FFFF`). -/
def cont4first (b c1 : Nat) : Bool :=
  if b = 0xF0 then 0x90 ≤ c1 && c1 < 0xC0
  else if b = 0xF4 then 0x80 ≤ c1 && c1 < 0x90
  else isCont c1

/-- Scalar value of a 2-byte UTF-8 sequence. -/
def utf8Val2 (b c1 : Nat) : Nat :=
  (b - 0xC0) * 0x40 + (c1 - 0x80)

/-- Scalar value of a 3-byte UTF-8 sequence. -/
def utf8Val3 (b c1 c2 : Nat) : Nat :=
  (b - 0xE0) * 0x1000 + (c1 - 0x80) * 0x40 + (c2 - 0x80)

/-- Scalar value of a 4-byte UTF-8 sequence. -/
def utf8Val4 (b c1 c2 c3 : Nat) : Nat :=
  (b - 0xF0) * 0x40000 + (c1 - 0x80) * 0x1000 + (c2 - 0x80) * 0x40 + (c3 - 0x80)

/-- Strict UTF-8 decoding of a byte list into its Unicode scalar values, as
`str::from_utf8` validates it: overlong encodings, surrogates and values
above `U+10FFFF` are all rejected (`none`). -/
def utf8Decode : List Nat → Option (List Nat)
  | [] => some []
  | b :: rest =>
    if b < 0x80 then (utf8Decode rest).map fun cs => b :: cs
    else if b < 0xC2 then none
    else if b < 0xE0 then
      match rest with
      | c1 :: rest1 =>
        if isCont c1 then (utf8Decode rest1).map fun cs => utf8Val2 b c1 :: cs
        else none
      | [] => none
    else if b < 0xF0 then
      match rest with
      | c1 :: c2 :: rest2 =>
        if cont3first b c1 && isCont c2 then
          (utf8Decode rest2).map fun cs => utf8Val3 b c1 c2 :: cs
        else none
      | _ => none
    else if b < 0xF5 then
      match rest with
      | c1 :: c2 :: c3 :: rest3 =>
        if cont4first b c1 && isCont c2 && isCont c3 then
          (utf8Decode rest3).map fun cs => utf8Val4 b c1 c2 c3 :: cs
        else none
      | _ => none
    else none

/-- Lossy UTF-8 decoding, as `String::from_utf8_lossy`: every maximal
ill-formed subpart is replaced by one `U+FFFD` replacement character. -/
def utf8Lossy : List Nat → List Nat
  | [] => []
  | b :: rest =>
    if b < 0x80 then b :: utf8Lossy rest
    else if b < 0xC2 then 0xFFFD :: utf8Lossy rest
    else if b < 0xE0 then
      match rest with
      | [] => [0xFFFD]
      | c1 :: rest1 =>
        if isCont c1 then utf8Val2 b c1 :: utf8Lossy rest1
        else 0xFFFD :: utf8Lossy (c1 :: rest1)
    else if b < 0xF0 then
      match rest with
      | [] => [0xFFFD]
      | c1 :: rest1 =>
        if cont3first b c1 then
          match rest1 with
          | [] => [0xFFFD]
          | c2 :: rest2 =>
            if isCont c2 then utf8Val3 b c1 c2 :: utf8Lossy rest2
            else 0xFFFD :: utf8Lossy (c2 :: rest2)
        else 0xFFFD :: utf8Lossy (c1 :: rest1)
    else if b < 0xF5 then
      match rest with
      | [] => [0xFFFD]
      | c1 :: rest1 =>
        if cont4first b c1 then
          match rest1 with
          | [] => [0xFFFD]
          | c2 :: rest2 =>
            if isCont c2 then
              match rest2 with
              | [] => [0xFFFD]
              | c3 :: rest3 =>
                if isCont c3 then utf8Val4 b c1 c2 c3 :: utf8Lossy rest3
                else 0xFFFD :: utf8Lossy (c3 :: rest3)
            else 0xFFFD :: utf8Lossy (c2 :: rest2)
        else 0xFFFD :: utf8Lossy (c1 :: rest1)
    else 0xFFFD :: utf8Lossy rest
  termination_by l => l.length
  decreasing_by all_goals simp_all [List.length] <;> omega

/-- `EndianSlice::to_string` (and `Reader::to_string`): strict UTF-8 decoding
of the entire current region, non-consuming; `BadUtf8` on invalid input.  The
resulting string is represented by its scalar values. -/
def EndianSlice.to_string (s : EndianSlice) : Except Error (List Nat) :=
  match utf8Decode s.slice with
  | some cs => .ok cs
  | none => .error .BadUtf8

/-- `EndianSlice::to_string_lossy` (and `Reader::to_string_lossy`): lossy
UTF-8 decoding of the entire current region, never failing. -/
def EndianSlice.to_string_lossy (s : EndianSlice) : List Nat :=
  utf8Lossy s.slice

/-- `Reader::endian`. -/
def Reader.endian (s : EndianSlice) : Endian :=
  s.endian

/-- `Reader::empty`: collapse the region to zero length in place. -/
def Reader.empty (s : EndianSlice) : EndianSlice :=
  ⟨[], s.endian⟩

/-- `Reader::truncate`: shrink the region to `len` bytes from the front;
`UnexpectedEof` (state untouched) when fewer than `len` bytes remain. -/
def Reader.truncate (s : EndianSlice) (len : Nat) :
    Except Error Unit × EndianSlice :=
  if s.slice.length < len then (.error .UnexpectedEof, s)
  else (.ok (), ⟨s.slice.take len, s.endian⟩)

/-- `Reader::find`: `self.find(byte).ok_or(Error::UnexpectedEof)`. -/
def Reader.find (s : EndianSlice) (byte : Nat) : Except Error Nat :=
  match s.find byte with
  | some i => .ok i
  | none => .error .UnexpectedEof

/-- `Reader::skip`: advance the region's start by `len` bytes;
`UnexpectedEof` (state untouched) when fewer than `len` bytes remain. -/
def Reader.skip (s : EndianSlice) (len : Nat) :
    Except Error Unit × EndianSlice :=
  if s.slice.length < len then (.error .UnexpectedEof, s)
  else (.ok (), ⟨s.slice.drop len, s.endian⟩)

/-- `Reader::split`: consume `len` bytes and return them as a new view with
the same endianity. -/
def Reader.split (s : EndianSlice) (len : Nat) :
    Except Error EndianSlice × EndianSlice :=
  match s.read_slice len with
  | (.ok sl, s2) => (.ok (EndianSlice.new sl s.endian), s2)
  | (.error e, s2) => (.error e, s2)

/-- `Reader::read_u8_array::<A>` with `size_of::<A>() = n`: consume exactly
`n` bytes and return them unconverted. -/
def Reader.read_u8_array (s : EndianSlice) (n : Nat) :
    Except Error (List Nat) × EndianSlice :=
  match s.read_slice n with
  | (.ok sl, s2) => (.ok sl, s2)
  | (.error e, s2) => (.error e, s2)

/-- `Reader::read_u8`: consume 1 byte, returned as-is. -/
def Reader.read_u8 (s : EndianSlice) : Except Error Nat × EndianSlice :=
  match s.read_slice 1 with
  | (.ok sl, s2) => (.ok (sl.headD 0), s2)
  | (.error e, s2) => (.error e, s2)

/-- `Reader::read_i8`: consume 1 byte, `slice[0] as i8`. -/
def Reader.read_i8 (s : EndianSlice) : Except Error Int × EndianSlice :=
  match s.read_slice 1 with
  | (.ok sl, s2) => (.ok (toSigned 8 (sl.headD 0)), s2)
  | (.error e, s2) => (.error e, s2)

/-- `Reader::read_u16`: consume 2 bytes, decoded by the view's strategy. -/
def Reader.read_u16 (s : EndianSlice) : Except Error Nat × EndianSlice :=
  match s.read_slice 2 with
  | (.ok sl, s2) => (.ok (s.endian.read_u16 sl), s2)
  | (.error e, s2) => (.error e, s2)

/-- `Reader::read_i16`: consume 2 bytes, decoded by the view's strategy. -/
def Reader.read_i16 (s : EndianSlice) : Except Error Int × EndianSlice :=
  match s.read_slice 2 with
  | (.ok sl, s2) => (.ok (s.endian.read_i16 sl), s2)
  | (.error e, s2) => (.error e, s2)

/-- `Reader::read_u32`: consume 4 bytes, decoded by the view's strategy. -/
def Reader.read_u32 (s : EndianSlice) : Except Error Nat × EndianSlice :=
  match s.read_slice 4 with
  | (.ok sl, s2) => (.ok (s.endian.read_u32 sl), s2)
  | (.error e, s2) => (.error e, s2)

/-- `Reader::read_i32`: consume 4 bytes, decoded by the view's strategy. -/
def Reader.read_i32 (s : EndianSlice) : Except Error Int × EndianSlice :=
  match s.read_slice 4 with
  | (.ok sl, s2) => (.ok (s.endian.read_i32 sl), s2)
  | (.error e, s2) => (.error e, s2)

/-- `Reader::read_u64`: consume 8 bytes, decoded by the view's strategy. -/
def Reader.read_u64 (s : EndianSlice) : Except Error Nat × EndianSlice :=
  match s.read_slice 8 with
  | (.ok sl, s2) => (.ok (s.endian.read_u64 sl), s2)
  | (.error e, s2) => (.error e, s2)

/-- `Reader::read_i64`: consume 8 bytes, decoded by the view's strategy. -/
def Reader.read_i64 (s : EndianSlice) : Except Error Int × EndianSlice :=
  match s.read_slice 8 with
  | (.ok sl, s2) => (.ok (s.endian.read_i64 sl), s2)
  | (.error e, s2) => (.error e, s2)

/-! ## Helper lemmas -/

theorem read_slice_eq_of_lt (s : EndianSlice) (n : Nat)
    (h : s.slice.length < n) :
    s.read_slice n = (.error .UnexpectedEof, s) := by
  simp [EndianSlice.read_slice, h]

theorem read_slice_eq_of_le (s : EndianSlice) (n : Nat)
    (h : n ≤ s.slice.length) :
    s.read_slice n = (.ok (s.slice.take n), ⟨s.slice.drop n, s.endian⟩) := by
  simp [EndianSlice.read_slice, Nat.not_lt.mpr h]

/-! ## Claim theorems -/

/-- C1: every checked consuming operation of length `n` (the fixed-width
reads, their signed variants, `read_u8_array`, `skip`, `split`, `truncate`)
returns `UnexpectedEof` and leaves the view's region exactly as it was when
fewer than `n` bytes remain, and succeeds when at least `n` bytes remain. -/
theorem checked_ops_eof_no_partial_consumption (s : EndianSlice) (n : Nat) :
    (s.slice.length < n →
      Reader.skip s n = (.error .UnexpectedEof, s) ∧
      Reader.split s n = (.error .UnexpectedEof, s) ∧
      Reader.truncate s n = (.error .UnexpectedEof, s) ∧
      Reader.read_u8_array s n = (.error .UnexpectedEof, s)) ∧
    (s.slice.length < 1 →
      Reader.read_u8 s = (.error .UnexpectedEof, s) ∧
      Reader.read_i8 s = (.error .UnexpectedEof, s)) ∧
    (s.slice.length < 2 →
      Reader.read_u16 s = (.error .UnexpectedEof, s) ∧
      Reader.read_i16 s = (.error .UnexpectedEof, s)) ∧
    (s.slice.length < 4 →
      Reader.read_u32 s = (.error .UnexpectedEof, s) ∧
      Reader.read_i32 s = (.error .UnexpectedEof, s)) ∧
    (s.slice.length < 8 →
      Reader.read_u64 s = (.error .UnexpectedEof, s) ∧
      Reader.read_i64 s = (.error .UnexpectedEof, s)) ∧
    (n ≤ s.slice.length →
      Reader.skip s n = (.ok (), ⟨s.slice.drop n, s.endian⟩) ∧
      Reader.split s n =
        (.ok ⟨s.slice.take n, s.endian⟩, ⟨s.slice.drop n, s.endian⟩) ∧
      Reader.truncate s n = (.ok (), ⟨s.slice.take n, s.endian⟩) ∧
      Reader.read_u8_array s n =
        (.ok (s.slice.take n), ⟨s.slice.drop n, s.endian⟩)) ∧
    (1 ≤ s.slice.length →
      (∃ v t, Reader.read_u8 s = (.ok v, t)) ∧
      (∃ v t, Reader.read_i8 s = (.ok v, t))) ∧
    (2 ≤ s.slice.length →
      (∃ v t, Reader.read_u16 s = (.ok v, t)) ∧
      (∃ v t, Reader.read_i16 s = (.ok v, t))) ∧
    (4 ≤ s.slice.length →
      (∃ v t, Reader.read_u32 s = (.ok v, t)) ∧
      (∃ v t, Reader.read_i32 s = (.ok v, t))) ∧
    (8 ≤ s.slice.length →
      (∃ v t, Reader.read_u64 s = (.ok v, t)) ∧
      (∃ v t, Reader.read_i64 s = (.ok v, t))) := by
  refine ⟨fun h => ?_, fun h => ?_, fun h => ?_, fun h => ?_, fun h => ?_,
    fun h => ?_, fun h => ?_, fun h => ?_, fun h => ?_, fun h => ?_⟩
  · simp [Reader.skip, Reader.split, Reader.truncate, Reader.read_u8_array,
      read_slice_eq_of_lt s n h, h]
  · simp [Reader.read_u8, Reader.read_i8, read_slice_eq_of_lt s 1 h]
  · simp [Reader.read_u16, Reader.read_i16, read_slice_eq_of_lt s 2 h]
  · simp [Reader.read_u32, Reader.read_i32, read_slice_eq_of_lt s 4 h]
  · simp [Reader.read_u64, Reader.read_i64, read_slice_eq_of_lt s 8 h]
  · simp [Reader.skip, Reader.split, Reader.truncate, Reader.read_u8_array,
      read_slice_eq_of_le s n h, Nat.not_lt.mpr h, EndianSlice.new]
  · exact ⟨⟨_, _, by simp [Reader.read_u8, read_slice_eq_of_le s 1 h]; exact ⟨rfl, rfl⟩⟩,
      ⟨_, _, by simp [Reader.read_i8, read_slice_eq_of_le s 1 h]; exact ⟨rfl, rfl⟩⟩⟩
  · exact ⟨⟨_, _, by simp [Reader.read_u16, read_slice_eq_of_le s 2 h]; exact ⟨rfl, rfl⟩⟩,
      ⟨_, _, by simp [Reader.read_i16, read_slice_eq_of_le s 2 h]; exact ⟨rfl, rfl⟩⟩⟩
  · exact ⟨⟨_, _, by simp [Reader.read_u32, read_slice_eq_of_le s 4 h]; exact ⟨rfl, rfl⟩⟩,
      ⟨_, _, by simp [Reader.read_i32, read_slice_eq_of_le s 4 h]; exact ⟨rfl, rfl⟩⟩⟩
  · exact ⟨⟨_, _, by simp [Reader.read_u64, read_slice_eq_of_le s 8 h]; exact ⟨rfl, rfl⟩⟩,
      ⟨_, _, by simp [Reader.read_i64, read_slice_eq_of_le s 8 h]; exact ⟨rfl, rfl⟩⟩⟩

/-- C2: for every index `i ≤ len(v)`, `split_at i` yields a pair whose
lengths sum to `len(v)`, whose bytes are exactly the first `i` bytes and the
remaining bytes of `v`, both carrying `v`'s endianness strategy. -/
theorem split_at_in_bounds_spec (v : EndianSlice) (i : Nat)
    (h : i ≤ v.slice.length) :
    ∃ p q, v.split_at i = some (p, q) ∧
      p.slice.length + q.slice.length = v.slice.length ∧
      p.slice = v.slice.take i ∧ q.slice = v.slice.drop i ∧
      p.endian = v.endian ∧ q.endian = v.endian := by
  refine ⟨⟨v.slice.take i, v.endian⟩, ⟨v.slice.drop i, v.endian⟩, ?_, ?_,
    rfl, rfl, rfl, rfl⟩
  · simp [EndianSlice.split_at, EndianSlice.range_to, EndianSlice.range_from, h]
  · simp only [List.length_take, List.length_drop]
    omega

/-- Witness for C2 at the view over `[1, 2, 3]` split at index 1. -/
theorem split_at_in_bounds_spec_witness :
    ∃ p q, (EndianSlice.new [1, 2, 3] .LittleEndian).split_at 1 = some (p, q) ∧
      p.slice.length + q.slice.length =
        (EndianSlice.new [1, 2, 3] .LittleEndian).slice.length ∧
      p.slice = [1] ∧ q.slice = [2, 3] ∧
      p.endian = Endian.LittleEndian ∧ q.endian = Endian.LittleEndian :=
  split_at_in_bounds_spec (EndianSlice.new [1, 2, 3] .LittleEndian) 1
    (by decide)

theorem le_be_take_aux (k : Nat) (buf : List Nat) (h : buf.length = k) :
    leBytes (buf.take k) = beBytes (buf.reverse.take k) := by
  have t1 : buf.take k = buf := List.take_of_length_le (by omega)
  have t2 : buf.reverse.take k = buf.reverse :=
    List.take_of_length_le (by rw [List.length_reverse]; omega)
  rw [t1, t2, leBytes]

/-- C3: for 2-, 4- and 8-byte sequences, the fixed little-endian decoding of
the bytes equals the fixed big-endian decoding of the reversed bytes; bytes
`[0x01, 0x02]` read 0x0201 as little-endian u16 and 0x0102 as big-endian. -/
theorem le_decode_eq_be_decode_of_reverse (buf : List Nat) :
    (buf.length = 2 →
      Endian.read_u16 .LittleEndian buf =
        Endian.read_u16 .BigEndian buf.reverse) ∧
    (buf.length = 4 →
      Endian.read_u32 .LittleEndian buf =
        Endian.read_u32 .BigEndian buf.reverse) ∧
    (buf.length = 8 →
      Endian.read_u64 .LittleEndian buf =
        Endian.read_u64 .BigEndian buf.reverse) ∧
    Endian.read_u16 .LittleEndian [0x01, 0x02] = 0x0201 ∧
    Endian.read_u16 .BigEndian [0x01, 0x02] = 0x0102 := by
  refine ⟨fun h => ?_, fun h => ?_, fun h => ?_, by decide, by decide⟩
  · simp only [Endian.read_u16, Endian.is_big_endian]
    simp only [Bool.false_eq_true, if_false, if_true, reduceIte]
    exact le_be_take_aux 2 buf h
  · simp only [Endian.read_u32, Endian.is_big_endian]
    simp only [Bool.false_eq_true, if_false, if_true, reduceIte]
    exact le_be_take_aux 4 buf h
  · simp only [Endian.read_u64, Endian.is_big_endian]
    simp only [Bool.false_eq_true, if_false, if_true, reduceIte]
    exact le_be_take_aux 8 buf h

/-- C4: two views are equal iff their visible byte contents and their
endianness strategies are equal; in particular two views cut from different
backing buffers or different positions are equal exactly when their bytes
and strategy match. -/
theorem view_equality_is_content_equality (v w : EndianSlice)
    (b1 b2 : List Nat) (s1 l1 s2 l2 : Nat) (e1 e2 : Endian) :
    (v = w ↔ v.slice = w.slice ∧ v.endian = w.endian) ∧
    (EndianSlice.new (subslice b1 s1 l1) e1 =
        EndianSlice.new (subslice b2 s2 l2) e2 ↔
      subslice b1 s1 l1 = subslice b2 s2 l2 ∧ e1 = e2) := by
  constructor
  · constructor
    · rintro rfl
      exact ⟨rfl, rfl⟩
    · rintro ⟨h1, h2⟩
      cases v
      cases w
      cases h1
      cases h2
      rfl
  · constructor
    · intro h
      exact ⟨congrArg EndianSlice.slice h, congrArg EndianSlice.endian h⟩
    · rintro ⟨h1, h2⟩
      rw [EndianSlice.new, EndianSlice.new, h1, h2]

/-- C5: `to_string` strictly UTF-8-decodes the entire current region without
consuming it, succeeding exactly when the region is valid UTF-8 and failing
with `BadUtf8` otherwise; `[0x68, 0x69]` decodes to `"hi"`, `[0xFF, 0xFE]`
fails, and `to_string_lossy` on those bytes yields replacement characters. -/
theorem to_string_strict_utf8_spec (v : EndianSlice) (e : Endian) :
    (∀ cs, v.to_string = .ok cs ↔ utf8Decode v.slice = some cs) ∧
    (v.to_string = .error .BadUtf8 ↔ utf8Decode v.slice = none) ∧
    (EndianSlice.new [0x68, 0x69] e).to_string = .ok [0x68, 0x69] ∧
    (EndianSlice.new [0xFF, 0xFE] e).to_string = .error .BadUtf8 ∧
    (EndianSlice.new [0xFF, 0xFE] e).to_string_lossy = [0xFFFD, 0xFFFD] := by
  refine ⟨fun cs => ?_, ?_, rfl, rfl, ?_⟩
  · unfold EndianSlice.to_string
    cases hd : utf8Decode v.slice <;> simp [hd]
  · unfold EndianSlice.to_string
    cases hd : utf8Decode v.slice <;> simp [hd]
  · simp [EndianSlice.to_string_lossy, EndianSlice.new, utf8Lossy]

/-- C6: `split_at` with an index greater than the view's length is a fatal
contract violation (modelled as `none`, the panic), as are the underlying
`range_to` and `range_from`; no truncated pair and no error value comes
back. -/
theorem split_at_out_of_bounds_panics (v : EndianSlice) (i : Nat)
    (h : v.slice.length < i) :
    v.split_at i = none ∧ v.range_to i = none ∧ v.range_from i = none := by
  have ht : ¬ i ≤ v.slice.length := Nat.not_le.mpr h
  refine ⟨?_, ?_, ?_⟩ <;>
    simp [EndianSlice.split_at, EndianSlice.range_to, EndianSlice.range_from,
      ht]

/-- Witness for C6 at the 2-byte view split at index 3. -/
theorem split_at_out_of_bounds_panics_witness :
    (EndianSlice.new [1, 2] .LittleEndian).split_at 3 = none ∧
    (EndianSlice.new [1, 2] .LittleEndian).range_to 3 = none ∧
    (EndianSlice.new [1, 2] .LittleEndian).range_from 3 = none :=
  split_at_out_of_bounds_panics (EndianSlice.new [1, 2] .LittleEndian) 3
    (by decide)

/-- C7: a run-time strategy decodes by its tag — tagged `Big`, bytes
`[0x00, 0x01]` read as u16 give 1; tagged `Little`, 256 — and
`is_big_endian` holds exactly for the `Big` tag. -/
theorem runtime_endian_decodes_by_tag :
    Endian.read_u16 (.RunTime .Big) [0x00, 0x01] = 1 ∧
    Endian.read_u16 (.RunTime .Little) [0x00, 0x01] = 256 ∧
    (∀ t, (Endian.RunTime t).is_big_endian = true ↔ t = RunTimeEndian.Big) := by
  refine ⟨by decide, by decide, fun t => ?_⟩
  cases t <;> decide

theorem toSigned_emod (w v : Nat) :
    toSigned w v % ((2 : Int) ^ w) = (v : Int) % (2 : Int) ^ w := by
  have hmod : ((v % 2 ^ w : Nat) : Int) = (v : Int) % (2 : Int) ^ w := by
    push_cast
    ring_nf
  have hlt : v % 2 ^ w < 2 ^ w := Nat.mod_lt _ (Nat.two_pow_pos w)
  unfold toSigned
  split_ifs with hcase
  · rw [hmod, Int.emod_emod_of_dvd _ dvd_rfl]
  · rw [Int.emod_sub_cancel, hmod, Int.emod_emod_of_dvd _ dvd_rfl]

/-- C8: the signed reads return exactly the bit pattern of the corresponding
unsigned read reinterpreted as a two's-complement signed integer — the
bit-cast of the unsigned result, agreeing with it modulo the width. -/
theorem signed_reads_are_bitcasts (e : Endian) (buf : List Nat) :
    Endian.read_i16 e buf = toSigned 16 (Endian.read_u16 e buf) ∧
    Endian.read_i32 e buf = toSigned 32 (Endian.read_u32 e buf) ∧
    Endian.read_i64 e buf = toSigned 64 (Endian.read_u64 e buf) ∧
    Endian.read_i16 e buf % (2 : Int) ^ 16 =
      (Endian.read_u16 e buf : Int) % (2 : Int) ^ 16 ∧
    Endian.read_i32 e buf % (2 : Int) ^ 32 =
      (Endian.read_u32 e buf : Int) % (2 : Int) ^ 32 ∧
    Endian.read_i64 e buf % (2 : Int) ^ 64 =
      (Endian.read_u64 e buf : Int) % (2 : Int) ^ 64 :=
  ⟨rfl, rfl, rfl, toSigned_emod 16 _, toSigned_emod 32 _, toSigned_emod 64 _⟩

/-- C9: every operation that derives a new view or shrinks an existing one
(`range`, `range_from`, `range_to`, `split_at`, `split`, `skip`, `truncate`,
`empty`) carries the original endianness strategy unchanged into every view
it produces. -/
theorem shrinking_ops_preserve_endian (v : EndianSlice) (i j n : Nat) :
    (v.range i j = none ∨
      v.range i j = some ⟨(v.slice.take j).drop i, v.endian⟩) ∧
    (v.range_from i = none ∨
      v.range_from i = some ⟨v.slice.drop i, v.endian⟩) ∧
    (v.range_to i = none ∨ v.range_to i = some ⟨v.slice.take i, v.endian⟩) ∧
    (v.split_at i = none ∨
      v.split_at i =
        some (⟨v.slice.take i, v.endian⟩, ⟨v.slice.drop i, v.endian⟩)) ∧
    ((Reader.split v n).2.endian = v.endian ∧
      ((Reader.split v n).1 = .error .UnexpectedEof ∨
        (Reader.split v n).1 = .ok ⟨v.slice.take n, v.endian⟩)) ∧
    (Reader.skip v n).2.endian = v.endian ∧
    (Reader.truncate v n).2.endian = v.endian ∧
    (Reader.empty v).endian = v.endian := by
  refine ⟨?_, ?_, ?_, ?_, ?_, ?_, ?_, rfl⟩
  · unfold EndianSlice.range
    split_ifs <;> simp
  · unfold EndianSlice.range_from
    split_ifs <;> simp
  · unfold EndianSlice.range_to
    split_ifs <;> simp
  · unfold EndianSlice.split_at EndianSlice.range_to EndianSlice.range_from
    split_ifs <;> simp
  · by_cases hc : v.slice.length < n
    · simp [Reader.split, read_slice_eq_of_lt v n hc]
    · simp [Reader.split, read_slice_eq_of_le v n (Nat.not_lt.mp hc),
        EndianSlice.new]
  · unfold Reader.skip
    split_ifs <;> rfl
  · unfold Reader.truncate
    split_ifs <;> rfl

theorem findIdx_mem_aux (b : Nat) (l : List Nat) :
    (b ∈ l → ∃ i, l.findIdx? (· == b) = some i) ∧
    (b ∉ l → l.findIdx? (· == b) = none) := by
  constructor
  · intro hm
    induction l with
    | nil => cases hm
    | cons a l ih =>
      rw [List.findIdx?_cons]
      by_cases ha : a = b
      · simp [ha]
      · rcases List.mem_cons.mp hm with h | h
        · exact absurd h.symm ha
        · rcases ih h with ⟨i, hi⟩
          refine ⟨i + 1, ?_⟩
          simp [ha, List.findIdx?_succ, hi]
  · intro hm
    rw [List.findIdx?_eq_none_iff]
    intro x hx
    simp only [beq_eq_false_iff_ne, ne_eq]
    exact fun hxb => hm (hxb ▸ hx)

/-- C10: when the byte does not occur in the view, the Reader-contract
`find` returns the `UnexpectedEof` error while the inherent `find` returns
`none`; when it occurs, the inherent `find` returns its index and the
Reader-contract `find` returns the same index; both are non-consuming. -/
theorem find_absent_is_unexpected_eof (v : EndianSlice) (b : Nat) :
    (b ∉ v.slice →
      EndianSlice.find v b = none ∧
      Reader.find v b = .error .UnexpectedEof) ∧
    (b ∈ v.slice →
      ∃ i, EndianSlice.find v b = some i ∧ Reader.find v b = .ok i) := by
  constructor
  · intro hm
    have hn : EndianSlice.find v b = none :=
      (findIdx_mem_aux b v.slice).2 hm
    exact ⟨hn, by rw [Reader.find, hn]⟩
  · intro hm
    rcases (findIdx_mem_aux b v.slice).1 hm with ⟨i, hi⟩
    have hs : EndianSlice.find v b = some i := hi
    exact ⟨i, hs, by rw [Reader.find, hs]⟩

end Gimli
